import Mathlib

/-!
# Verification of the dashboard data pipeline (dashboard_app.py)

A shallow embedding of the tabular pipeline of `src/dashboard_app.py`:
cell values, column-oriented data frames, the normalization routine
`process_loaded_df`, the sidebar filtering (`df_selection`), the KPI
block, the duplicate-registration count, the productivity ranking and
the map point reduction (`prepare_map_points`).

Modelling conventions:
  * a pandas cell is `Val`: missing (`NaN`/`None`), a string, or a number
    (numbers are modelled exactly as rationals; the `float32` downcast of
    the memory-optimization pass is representation-only in this model);
  * a `DataFrame` is a list of named columns (`DF`); pandas assigns
    columns by name, so `setCol` replaces the column in place when the
    name exists and appends it at the end otherwise;
  * `pd.to_numeric(errors ...)` is modelled by an exact decimal parser
    `parseRat` (optional sign, digits, optional fractional part);
  * Python `str.upper` is modelled by `String.toUpper`; the two agree on
    the ASCII allow-list that the meter rule compares against;
  * `Series.value_counts` counts the distinct non-missing values, in
    first-occurrence order, then sorts descending by count with a stable
    insertion sort (ties keep first-encountered order).
-/

namespace Dashboard

/-- A cell of a pandas data frame: missing, a string, or a number. -/
inductive Val where
  | na : Val
  | str : String → Val
  | num : ℚ → Val
deriving DecidableEq

/-- Column-oriented data frame: named columns of cell values. -/
abbrev DF := List (String × List Val)

/-- First column with the given name (pandas column lookup). -/
def getCol : DF → String → Option (List Val)
  | [], _ => none
  | p :: ps, c => if p.1 = c then some p.2 else getCol ps c

/-- Python `col in df.columns`. -/
def hasCol (df : DF) (c : String) : Bool := (getCol df c).isSome

/-- Row count: the length of the first column (0 for a frame with no
columns, as for an empty pandas frame). -/
def nrows : DF → Nat
  | [] => 0
  | p :: _ => p.2.length

/-- Python `df[c] = xs`: replace the column in place when present,
append it at the end otherwise. -/
def setCol (df : DF) (c : String) (xs : List Val) : DF :=
  if hasCol df c then df.map (fun p => if p.1 = c then (c, xs) else p)
  else df ++ [(c, xs)]

/-- Value of a digit string. -/
def digitsToNat (ds : List Char) : Nat :=
  ds.foldl (fun n ch => 10 * n + (ch.toNat - Char.toNat (Char.ofNat 48))) 0

/-- Unsigned decimal literal: digits, optionally followed by a dot and
more digits (at least one digit overall). -/
def parseUnsigned (cs : List Char) : Option ℚ :=
  let ip := cs.takeWhile Char.isDigit
  let rest := cs.dropWhile Char.isDigit
  match rest with
  | [] => if ip.isEmpty then none else some (digitsToNat ip : ℚ)
  | ch :: fr =>
    if ch = Char.ofNat 46 ∧ fr.all Char.isDigit ∧ (¬ ip.isEmpty ∨ ¬ fr.isEmpty) then
      some ((digitsToNat ip : ℚ) + (digitsToNat fr : ℚ) / ((10 : ℚ) ^ fr.length))
    else none

/-- Decimal literal with an optional sign; the model of what
`pd.to_numeric` accepts from a string. -/
def parseRat (s : String) : Option ℚ :=
  match s.toList with
  | [] => none
  | ch :: rest =>
    if ch = Char.ofNat 45 then (parseUnsigned rest).map (fun q => -q)
    else if ch = Char.ofNat 43 then parseUnsigned rest
    else parseUnsigned (ch :: rest)

/-- Python `str.upper`, as the character-wise uppercase map. It agrees
with `String.toUpper`; the direct construction is used because the
meter-rule allow-list it is compared against is ASCII. -/
def pyUpper (s : String) : String := String.mk (s.data.map Char.toUpper)

/-- Python `str(x)` on a cell (`str(nan)` is the text `nan`). -/
def valToStr : Val → String
  | Val.na => "nan"
  | Val.str s => s
  | Val.num q => toString q

/-- Python `Series.fillna(t)`: replace missing cells by the string `t`. -/
def fillnaStr (t : String) : Val → Val
  | Val.na => Val.str t
  | v => v

/-- Python `Series.astype(string)`: cast every non-missing cell to text. -/
def astypeStr : Val → Val
  | Val.na => Val.na
  | v => Val.str (valToStr v)

/-- Python `pd.to_numeric(x, errors coerce)` on one cell. -/
def toNumeric : Val → Val
  | Val.na => Val.na
  | Val.num q => Val.num q
  | Val.str s =>
    match parseRat s with
    | some q => Val.num q
    | none => Val.na

/-- Python `Series.fillna(0)` on one cell. -/
def fillnaZero : Val → Val
  | Val.na => Val.num 0
  | v => v

/-- The per-cell effect of the string-column branch of the coercion
loop: `fillna(Não informado).astype(string)`. -/
def stringCoerce (v : Val) : Val := astypeStr (fillnaStr "Não informado" v)

/-- The per-cell effect of the numeric-column branch:
`to_numeric(errors coerce).fillna(0)`. -/
def numCoerce (v : Val) : Val := fillnaZero (toNumeric v)

/-- The `EXPECTED_COLUMNS` table of dashboard_app.py (lines 19-34). -/
def EXPECTED_COLUMNS : List (String × String) :=
  [("MUNICIPIO", "string"),
   ("BAIRRO", "string"),
   ("TIPO_CADASTRO", "string"),
   ("SITUACAO_LIGACAO", "string"),
   ("IRREGULARIDADE_IDENTIFICADA", "string"),
   ("SITUACAO_HIDROMETRO", "string"),
   ("TIPO_EDIFICACAO", "string"),
   ("FONTE_ALTERNATIVA", "string"),
   ("TOTAL_DE_MORADORES", "float64"),
   ("QUANTOS_LITROS_TOTAIS", "float64"),
   ("PADRAO_DO_IMOVEL", "string"),
   ("LOGRADOURO", "string"),
   ("QUADRA", "string"),
   ("TIPO_VISITA", "string")]

/-- The coercion applied to a present column of declared dtype. -/
def coerceFun (dtype : String) (v : Val) : Val :=
  if dtype = "string" then stringCoerce v
  else if dtype = "float64" then numCoerce v
  else v

/-- A loop of the shape `for b in L: if key b in df.columns:
df[key b] = df[key b].map (fn b)`. -/
def applyColOps {β : Type} (key : β → String) (fn : β → Val → Val)
    (L : List β) (d : DF) : DF :=
  L.foldl (fun d b =>
    match getCol d (key b) with
    | some xs => setCol d (key b) (xs.map (fn b))
    | none => d) d

/-- The coercion loop of `process_loaded_df` (lines 67-75): each
declared column that is present is coerced per its declared dtype. -/
def coerceStep (d : DF) : DF :=
  applyColOps Prod.fst (fun p => coerceFun p.2) EXPECTED_COLUMNS d

/-- The lambda of lines 79-81: SIM when the cell is non-missing and its
uppercased text is in the allow-list, NÃO otherwise. -/
def possuiRule (x : Val) : Val :=
  if x ≠ Val.na ∧ pyUpper (valToStr x) ∈ ["NORMAL", "QUEBRADO", "INSTALADO"]
  then Val.str "SIM" else Val.str "NÃO"

/-- Lines 78-81: derive POSSUI_HIDROMETRO when SITUACAO_HIDROMETRO is
present. -/
def hidrometroStep (d : DF) : DF :=
  match getCol d "SITUACAO_HIDROMETRO" with
  | some xs => setCol d "POSSUI_HIDROMETRO" (xs.map possuiRule)
  | none => d

/-- Lines 83-87: create the two numeric columns, filled with the scalar
0 broadcast to the row count, when absent. -/
def ensureNumericStep (d : DF) : DF :=
  let d1 := if hasCol d "TOTAL_DE_MORADORES" then d
    else setCol d "TOTAL_DE_MORADORES" (List.replicate (nrows d) (Val.num 0))
  if hasCol d1 "QUANTOS_LITROS_TOTAIS" then d1
  else setCol d1 "QUANTOS_LITROS_TOTAIS" (List.replicate (nrows d1) (Val.num 0))

/-- The `category_cols` list of lines 91-94. -/
def category_cols : List String :=
  ["MUNICIPIO", "BAIRRO", "STATUS", "SITUACAO_LIGACAO",
   "TIPO_VISITA", "PADRAO_DO_IMOVEL", "IRREGULARIDADE_IDENTIFICADA", "TIPO_EDIFICACAO"]

/-- Pandas `astype(category)` changes the storage representation, not any cell
value: the identity on cells in this model. -/
def astypeCategory (v : Val) : Val := v

/-- The downcast list of line 100. -/
def downcast_cols : List String := ["TOTAL_DE_MORADORES", "QUANTOS_LITROS_TOTAIS"]

/-- Lines 89-105: category conversion and numeric downcast (the
`float32` narrowing is representation-only here, the value part being
`to_numeric(errors coerce).fillna(0)`). -/
def optimizeStep (d : DF) : DF :=
  let d1 := applyColOps id (fun _ => astypeCategory) category_cols d
  applyColOps id (fun _ => numCoerce) downcast_cols d1

/-- The whole of `process_loaded_df` (lines 64-110). -/
def process_loaded_df (df : DF) : DF :=
  optimizeStep (ensureNumericStep (hidrometroStep (coerceStep df)))

example : parseRat "7" = some 7 := by decide
example : parseRat "-3" = some (-3) := by decide
example : parseRat "abc" = none := by decide
example : stringCoerce Val.na = Val.str "Não informado" := by decide
example : numCoerce (Val.str "x") = Val.num 0 := by decide
example : possuiRule (Val.str "quebrado") = Val.str "SIM" := by decide
example : possuiRule (Val.str "Não informado") = Val.str "NÃO" := by decide
example :
    process_loaded_df [("MATRICULA", [Val.num 5])]
      = [("MATRICULA", [Val.num 5]),
         ("TOTAL_DE_MORADORES", [Val.num 0]),
         ("QUANTOS_LITROS_TOTAIS", [Val.num 0])] := by decide

/-! ### Basic frame lemmas -/

theorem getCol_cons (p : String × List Val) (ps : DF) (c : String) :
    getCol (p :: ps) c = if p.1 = c then some p.2 else getCol ps c := rfl

theorem getCol_setCol_self (d : DF) (c : String) (xs : List Val) :
    getCol (setCol d c xs) c = some xs := by
  unfold setCol
  by_cases h : hasCol d c = true
  · simp only [h, if_true]
    induction d with
    | nil => simp [hasCol, getCol] at h
    | cons p ps ih =>
      by_cases hp : p.1 = c
      · simp [getCol, hp]
      · have h2 : hasCol ps c = true := by
          simpa [hasCol, getCol, hp] using h
        simpa [getCol, hp] using ih h2
  · simp only [h, if_false]
    induction d with
    | nil => simp [getCol]
    | cons p ps ih =>
      by_cases hp : p.1 = c
      · simp [hasCol, getCol, hp] at h
      · have h2 : hasCol ps c = true → False := by
          intro hh; exact h (by simpa [hasCol, getCol, hp] using hh)
        simpa [getCol, hp] using ih (by simpa using h2)

theorem getCol_mapReplace_ne (d : DF) (c c' : String) (xs : List Val) (h : c' ≠ c) :
    getCol (d.map (fun p => if p.1 = c then (c, xs) else p)) c' = getCol d c' := by
  induction d with
  | nil => rfl
  | cons p ps ih =>
    by_cases hp : p.1 = c
    · have hcc : ¬ (c = c') := fun hh => h hh.symm
      simp [getCol, hp, hcc, ih]
    · by_cases hp2 : p.1 = c'
      · simp [getCol, hp, hp2, h]
      · simp [getCol, hp, hp2, ih]

theorem getCol_appendOne_ne (d : DF) (c c' : String) (xs : List Val) (h : c' ≠ c) :
    getCol (d ++ [(c, xs)]) c' = getCol d c' := by
  induction d with
  | nil =>
    have hcc : ¬ (c = c') := fun hh => h hh.symm
    simp [getCol, hcc]
  | cons p ps ih =>
    by_cases hp2 : p.1 = c'
    · simp [getCol, hp2]
    · simp [getCol, hp2, ih]

theorem getCol_setCol_ne (d : DF) (c c' : String) (xs : List Val) (h : c' ≠ c) :
    getCol (setCol d c xs) c' = getCol d c' := by
  unfold setCol
  by_cases hc : hasCol d c = true
  · simp only [hc, if_true]
    exact getCol_mapReplace_ne d c c' xs h
  · simp only [hc, if_false]
    exact getCol_appendOne_ne d c c' xs h

theorem hasCol_true_iff (d : DF) (c : String) :
    hasCol d c = true ↔ ∃ xs, getCol d c = some xs := by
  unfold hasCol
  cases h : getCol d c <;> simp

theorem getCol_none_of_hasCol_false (d : DF) (c : String)
    (h : hasCol d c = false) : getCol d c = none := by
  unfold hasCol at h
  cases hg : getCol d c with
  | none => rfl
  | some xs => rw [hg] at h; simp at h

theorem nrows_setCol_of_getCol (d : DF) (c : String) (xs ys : List Val)
    (h : getCol d c = some ys) (hl : xs.length = ys.length) :
    nrows (setCol d c xs) = nrows d := by
  have hc : hasCol d c = true := by rw [hasCol_true_iff]; exact ⟨ys, h⟩
  unfold setCol
  simp only [hc, if_true]
  cases d with
  | nil => simp [getCol] at h
  | cons p ps =>
    by_cases hp : p.1 = c
    · have : some p.2 = some ys := by simpa [getCol, hp] using h
      simp [nrows, hp, hl, ← Option.some.injEq p.2 ys |>.mp this]
    · simp [nrows, hp]

theorem nrows_setCol_replicate (d : DF) (c : String) (v : Val)
    (h : hasCol d c = false) :
    nrows (setCol d c (List.replicate (nrows d) v)) = nrows d := by
  unfold setCol
  simp only [h, Bool.false_eq_true, if_false]
  cases d with
  | nil => simp [nrows]
  | cons p ps => simp [nrows]

/-! ### Lemmas about the column-loop combinator -/

theorem applyColOps_cons {β : Type} (key : β → String) (fn : β → Val → Val)
    (b : β) (L : List β) (d : DF) :
    applyColOps key fn (b :: L) d =
      applyColOps key fn L
        (match getCol d (key b) with
         | some xs => setCol d (key b) (xs.map (fn b))
         | none => d) := rfl

theorem getCol_applyColOps_notMem {β : Type} (key : β → String) (fn : β → Val → Val)
    (L : List β) (d : DF) (c : String) (h : c ∉ L.map key) :
    getCol (applyColOps key fn L d) c = getCol d c := by
  induction L generalizing d with
  | nil => rfl
  | cons b L ih =>
    have hb : key b ≠ c := fun hh => h (by simp [hh])
    have hL : c ∉ L.map key := fun hh => h (by simp [hh])
    rw [applyColOps_cons]
    cases hg : getCol d (key b) with
    | none => simpa using ih _ hL
    | some xs =>
      rw [ih _ hL]
      exact getCol_setCol_ne _ _ _ _ (fun hh => hb hh.symm)

theorem getCol_applyColOps_none {β : Type} (key : β → String) (fn : β → Val → Val)
    (L : List β) (d : DF) (c : String) (h : getCol d c = none) :
    getCol (applyColOps key fn L d) c = none := by
  induction L generalizing d with
  | nil => exact h
  | cons b L ih =>
    rw [applyColOps_cons]
    by_cases hb : key b = c
    · rw [hb]
      cases hg : getCol d c with
      | none => simpa [hg] using ih _ h
      | some xs => rw [h] at hg; cases hg
    · cases hg : getCol d (key b) with
      | none => simpa using ih _ h
      | some xs =>
        exact ih _ (by rw [getCol_setCol_ne _ _ _ _ (fun hh => hb hh.symm)]; exact h)

theorem getCol_applyColOps_mem {β : Type} (key : β → String) (fn : β → Val → Val)
    (L : List β) (b : β) (d : DF) (c : String) (xs : List Val)
    (hnd : (L.map key).Nodup) (hb : b ∈ L) (hc : key b = c)
    (hx : getCol d c = some xs) :
    getCol (applyColOps key fn L d) c = some (xs.map (fn b)) := by
  induction L generalizing d xs with
  | nil => cases hb
  | cons a L ih =>
    rw [applyColOps_cons]
    rcases List.mem_cons.mp hb with hba | hbL
    · subst hba
      rw [hc, hx]
      have hnotin : c ∉ L.map key := by
        have := (List.nodup_cons.mp hnd).1
        rwa [hc] at this
      rw [getCol_applyColOps_notMem _ _ _ _ _ hnotin]
      exact getCol_setCol_self _ _ _
    · have hka : key a ≠ c := by
        intro hh
        have h1 : c ∈ L.map key := by
          exact List.mem_map.mpr ⟨b, hbL, hc⟩
        have := (List.nodup_cons.mp hnd).1
        rw [hh] at this
        exact this h1
      cases hg : getCol d (key a) with
      | none => exact ih _ _ (List.nodup_cons.mp hnd).2 hbL hx
      | some ys =>
        refine ih _ _ (List.nodup_cons.mp hnd).2 hbL ?_
        rw [getCol_setCol_ne _ _ _ _ (fun hh => hka hh.symm)]
        exact hx

theorem isSome_getCol_applyColOps {β : Type} (key : β → String) (fn : β → Val → Val)
    (L : List β) (d : DF) (c : String) :
    (getCol (applyColOps key fn L d) c).isSome = (getCol d c).isSome := by
  induction L generalizing d with
  | nil => rfl
  | cons b L ih =>
    rw [applyColOps_cons]
    cases hg : getCol d (key b) with
    | none => simpa using ih d
    | some xs =>
      rw [ih]
      by_cases hb : key b = c
      · subst hb
        simp [getCol_setCol_self, hg]
      · rw [getCol_setCol_ne _ _ _ _ (fun hh => hb hh.symm)]

theorem nrows_applyColOps {β : Type} (key : β → String) (fn : β → Val → Val)
    (L : List β) (d : DF) :
    nrows (applyColOps key fn L d) = nrows d := by
  induction L generalizing d with
  | nil => rfl
  | cons b L ih =>
    rw [applyColOps_cons]
    cases hg : getCol d (key b) with
    | none => simpa using ih d
    | some xs =>
      rw [ih]
      exact nrows_setCol_of_getCol _ _ _ _ hg (by simp)

/-! ### Characterizing each stage of process_loaded_df -/

theorem getCol_coerceStep_mem (d : DF) (c dt : String) (xs : List Val)
    (hdt : (c, dt) ∈ EXPECTED_COLUMNS) (hx : getCol d c = some xs) :
    getCol (coerceStep d) c = some (xs.map (coerceFun dt)) := by
  exact getCol_applyColOps_mem Prod.fst (fun p => coerceFun p.2) EXPECTED_COLUMNS
    (c, dt) d c xs (by decide) hdt rfl hx

theorem getCol_coerceStep_notMem (d : DF) (c : String)
    (h : c ∉ EXPECTED_COLUMNS.map Prod.fst) :
    getCol (coerceStep d) c = getCol d c :=
  getCol_applyColOps_notMem _ _ _ _ _ h

theorem getCol_coerceStep_none (d : DF) (c : String) (h : getCol d c = none) :
    getCol (coerceStep d) c = none :=
  getCol_applyColOps_none _ _ _ _ _ h

theorem nrows_coerceStep (d : DF) : nrows (coerceStep d) = nrows d :=
  nrows_applyColOps _ _ _ _

theorem getCol_hidrometroStep_ne (d : DF) (c : String)
    (hc : c ≠ "POSSUI_HIDROMETRO") :
    getCol (hidrometroStep d) c = getCol d c := by
  unfold hidrometroStep
  cases getCol d "SITUACAO_HIDROMETRO" with
  | none => rfl
  | some xs => exact getCol_setCol_ne _ _ _ _ hc

theorem getCol_hidrometroStep_possui (d : DF) (xs : List Val)
    (hs : getCol d "SITUACAO_HIDROMETRO" = some xs) :
    getCol (hidrometroStep d) "POSSUI_HIDROMETRO" = some (xs.map possuiRule) := by
  unfold hidrometroStep
  rw [hs]
  exact getCol_setCol_self _ _ _

theorem hidrometroStep_of_none (d : DF)
    (hs : getCol d "SITUACAO_HIDROMETRO" = none) : hidrometroStep d = d := by
  unfold hidrometroStep
  rw [hs]

theorem getCol_ensureNumericStep_ne (d : DF) (c : String)
    (h1 : c ≠ "TOTAL_DE_MORADORES") (h2 : c ≠ "QUANTOS_LITROS_TOTAIS") :
    getCol (ensureNumericStep d) c = getCol d c := by
  unfold ensureNumericStep
  cases ht : hasCol d "TOTAL_DE_MORADORES" with
  | true =>
    simp only [ht, if_true]
    cases hq : hasCol d "QUANTOS_LITROS_TOTAIS" with
    | true => simp [hq]
    | false =>
      simp only [hq, Bool.false_eq_true, if_false]
      exact getCol_setCol_ne _ _ _ _ h2
  | false =>
    simp only [ht, Bool.false_eq_true, if_false]
    have e1 : getCol (setCol d "TOTAL_DE_MORADORES"
        (List.replicate (nrows d) (Val.num 0))) c = getCol d c :=
      getCol_setCol_ne _ _ _ _ h1
    cases hq : hasCol (setCol d "TOTAL_DE_MORADORES"
        (List.replicate (nrows d) (Val.num 0))) "QUANTOS_LITROS_TOTAIS" with
    | true => simp [hq, e1]
    | false =>
      simp only [hq, Bool.false_eq_true, if_false]
      rw [getCol_setCol_ne _ _ _ _ h2]
      exact e1

theorem nrows_setCol_notHas (d : DF) (c : String) (xs : List Val)
    (h : hasCol d c = false) (hd : d ≠ []) :
    nrows (setCol d c xs) = nrows d := by
  unfold setCol
  simp only [h, Bool.false_eq_true, if_false]
  cases d with
  | nil => exact absurd rfl hd
  | cons p ps => simp [nrows]

theorem nrows_ensureNumericStep (d : DF) : nrows (ensureNumericStep d) = nrows d := by
  unfold ensureNumericStep
  cases ht : hasCol d "TOTAL_DE_MORADORES" with
  | true =>
    simp only [ht, if_true]
    cases hq : hasCol d "QUANTOS_LITROS_TOTAIS" with
    | true => simp [hq]
    | false =>
      simp only [hq, Bool.false_eq_true, if_false]
      exact nrows_setCol_replicate _ _ _ hq
  | false =>
    simp only [ht, Bool.false_eq_true, if_false]
    have e0 : nrows (setCol d "TOTAL_DE_MORADORES"
        (List.replicate (nrows d) (Val.num 0))) = nrows d :=
      nrows_setCol_replicate _ _ _ ht
    cases hq : hasCol (setCol d "TOTAL_DE_MORADORES"
        (List.replicate (nrows d) (Val.num 0))) "QUANTOS_LITROS_TOTAIS" with
    | true => simp [hq, e0]
    | false =>
      simp only [hq, Bool.false_eq_true, if_false]
      rw [nrows_setCol_replicate _ _ _ hq]
      exact e0

theorem getCol_ensureNumericStep_total (d : DF) :
    getCol (ensureNumericStep d) "TOTAL_DE_MORADORES" =
      some (match getCol d "TOTAL_DE_MORADORES" with
            | some xs => xs
            | none => List.replicate (nrows d) (Val.num 0)) := by
  unfold ensureNumericStep
  cases ht : hasCol d "TOTAL_DE_MORADORES" with
  | true =>
    obtain ⟨xs, hxs⟩ := (hasCol_true_iff d _).mp ht
    simp only [ht, if_true, hxs]
    cases hq : hasCol d "QUANTOS_LITROS_TOTAIS" with
    | true => simp [hq, hxs]
    | false =>
      simp only [hq, Bool.false_eq_true, if_false]
      rw [getCol_setCol_ne _ _ _ _ (by decide)]
      exact hxs
  | false =>
    have ht2 : getCol d "TOTAL_DE_MORADORES" = none :=
      getCol_none_of_hasCol_false d _ ht
    simp only [ht, Bool.false_eq_true, if_false, ht2]
    have e1 : getCol (setCol d "TOTAL_DE_MORADORES"
        (List.replicate (nrows d) (Val.num 0))) "TOTAL_DE_MORADORES" =
        some (List.replicate (nrows d) (Val.num 0)) := getCol_setCol_self _ _ _
    cases hq : hasCol (setCol d "TOTAL_DE_MORADORES"
        (List.replicate (nrows d) (Val.num 0))) "QUANTOS_LITROS_TOTAIS" with
    | true => simp [hq, e1]
    | false =>
      simp only [hq, Bool.false_eq_true, if_false]
      rw [getCol_setCol_ne _ _ _ _ (by decide)]
      exact e1

theorem getCol_ensureNumericStep_litros (d : DF) :
    getCol (ensureNumericStep d) "QUANTOS_LITROS_TOTAIS" =
      some (match getCol d "QUANTOS_LITROS_TOTAIS" with
            | some xs => xs
            | none => List.replicate (nrows d) (Val.num 0)) := by
  unfold ensureNumericStep
  cases ht : hasCol d "TOTAL_DE_MORADORES" with
  | true =>
    simp only [ht, if_true]
    cases hq : hasCol d "QUANTOS_LITROS_TOTAIS" with
    | true =>
      obtain ⟨xs, hxs⟩ := (hasCol_true_iff d _).mp hq
      simp [hq, hxs]
    | false =>
      have hq2 : getCol d "QUANTOS_LITROS_TOTAIS" = none :=
        getCol_none_of_hasCol_false d _ hq
      simp only [hq, Bool.false_eq_true, if_false, hq2]
      exact getCol_setCol_self _ _ _
  | false =>
    simp only [ht, Bool.false_eq_true, if_false]
    have e0 : getCol (setCol d "TOTAL_DE_MORADORES"
        (List.replicate (nrows d) (Val.num 0))) "QUANTOS_LITROS_TOTAIS" =
        getCol d "QUANTOS_LITROS_TOTAIS" := getCol_setCol_ne _ _ _ _ (by decide)
    cases hq : hasCol (setCol d "TOTAL_DE_MORADORES"
        (List.replicate (nrows d) (Val.num 0))) "QUANTOS_LITROS_TOTAIS" with
    | true =>
      obtain ⟨xs, hxs⟩ := (hasCol_true_iff _ _).mp hq
      rw [e0] at hxs
      simp [hq, hxs, e0]
    | false =>
      have hq2 : getCol d "QUANTOS_LITROS_TOTAIS" = none := by
        have := getCol_none_of_hasCol_false _ _ hq
        rwa [e0] at this
      simp only [hq, Bool.false_eq_true, if_false, hq2]
      rw [nrows_setCol_replicate _ _ _ ht]
      exact getCol_setCol_self _ _ _

theorem getCol_categoryFold (d : DF) (c : String) :
    getCol (applyColOps id (fun _ => astypeCategory) category_cols d) c = getCol d c := by
  by_cases hm : c ∈ category_cols.map id
  · cases hg : getCol d c with
    | none => exact getCol_applyColOps_none _ _ _ _ _ hg
    | some xs =>
      have hb : c ∈ category_cols := by simpa using hm
      rw [getCol_applyColOps_mem id (fun _ => astypeCategory) category_cols c d c xs
        (by decide) hb rfl hg]
      rw [show astypeCategory = id from rfl, List.map_id]
  · exact getCol_applyColOps_notMem _ _ _ _ _ hm

theorem getCol_optimizeStep_notMem (d : DF) (c : String)
    (h : c ∉ downcast_cols) :
    getCol (optimizeStep d) c = getCol d c := by
  unfold optimizeStep
  rw [getCol_applyColOps_notMem _ _ _ _ _ (by simpa using h)]
  exact getCol_categoryFold d c

theorem getCol_optimizeStep_mem (d : DF) (c : String) (xs : List Val)
    (h : c ∈ downcast_cols) (hx : getCol d c = some xs) :
    getCol (optimizeStep d) c = some (xs.map numCoerce) := by
  unfold optimizeStep
  exact getCol_applyColOps_mem id (fun _ => numCoerce) downcast_cols c _ c xs
    (by decide) h rfl (by rw [getCol_categoryFold]; exact hx)

theorem nrows_optimizeStep (d : DF) : nrows (optimizeStep d) = nrows d := by
  unfold optimizeStep
  rw [nrows_applyColOps, nrows_applyColOps]

/-! ### The normalized form of each column class -/

theorem coerceFun_string_eq : coerceFun "string" = stringCoerce := by
  funext v; simp [coerceFun]

theorem coerceFun_float_eq : coerceFun "float64" = numCoerce := by
  funext v; simp [coerceFun]

theorem stringCoerce_idem (v : Val) :
    stringCoerce (stringCoerce v) = stringCoerce v := by
  cases v <;> simp [stringCoerce, fillnaStr, astypeStr, valToStr]

theorem numCoerce_idem (v : Val) : numCoerce (numCoerce v) = numCoerce v := by
  cases v with
  | na => simp [numCoerce, toNumeric, fillnaZero]
  | num q => simp [numCoerce, toNumeric, fillnaZero]
  | str s =>
    simp only [numCoerce, toNumeric]
    cases parseRat s <;> simp [fillnaZero, toNumeric]

theorem numCoerce_zero : numCoerce (Val.num 0) = Val.num 0 := rfl

theorem process_getCol_string (df : DF) (c : String)
    (hdt : (c, "string") ∈ EXPECTED_COLUMNS) :
    getCol (process_loaded_df df) c = (getCol df c).map (List.map stringCoerce) := by
  have h1 : c ≠ "POSSUI_HIDROMETRO" := by
    intro hh; subst hh; exact absurd hdt (by decide)
  have h2a : c ≠ "TOTAL_DE_MORADORES" := by
    intro hh; subst hh; exact absurd hdt (by decide)
  have h2b : c ≠ "QUANTOS_LITROS_TOTAIS" := by
    intro hh; subst hh; exact absurd hdt (by decide)
  have h2 : c ∉ downcast_cols := by
    intro hh
    simp only [downcast_cols, List.mem_cons, List.mem_singleton] at hh
    rcases hh with hh | hh
    · exact h2a hh
    · rcases hh with hh | hh
      · exact h2b hh
      · cases hh
  unfold process_loaded_df
  rw [getCol_optimizeStep_notMem _ _ h2,
      getCol_ensureNumericStep_ne _ _ h2a h2b,
      getCol_hidrometroStep_ne _ _ h1]
  cases hg : getCol df c with
  | none => rw [getCol_coerceStep_none _ _ hg]; rfl
  | some xs =>
    rw [getCol_coerceStep_mem _ _ _ _ hdt hg, coerceFun_string_eq]
    rfl

theorem process_getCol_numeric (df : DF) (c : String) (hc : c ∈ downcast_cols) :
    getCol (process_loaded_df df) c =
      some (match getCol df c with
            | some xs => xs.map numCoerce
            | none =>
              List.replicate (nrows (hidrometroStep (coerceStep df))) (Val.num 0)) := by
  have hfl : (c, "float64") ∈ EXPECTED_COLUMNS := by
    simp only [downcast_cols, List.mem_cons, List.mem_singleton] at hc
    rcases hc with hh | hh
    · subst hh; decide
    · rcases hh with hh | hh
      · subst hh; decide
      · cases hh
  have h1 : c ≠ "POSSUI_HIDROMETRO" := by
    intro hh; subst hh; exact absurd hfl (by decide)
  have hpre : getCol (hidrometroStep (coerceStep df)) c =
      (getCol df c).map (List.map numCoerce) := by
    rw [getCol_hidrometroStep_ne _ _ h1]
    cases hg : getCol df c with
    | none => rw [getCol_coerceStep_none _ _ hg]; rfl
    | some xs =>
      rw [getCol_coerceStep_mem _ _ _ _ hfl hg, coerceFun_float_eq]
      rfl
  have hens : getCol (ensureNumericStep (hidrometroStep (coerceStep df))) c =
      some (match getCol (hidrometroStep (coerceStep df)) c with
            | some xs => xs
            | none =>
              List.replicate (nrows (hidrometroStep (coerceStep df))) (Val.num 0)) := by
    simp only [downcast_cols, List.mem_cons, List.mem_singleton] at hc
    rcases hc with hh | hh
    · subst hh; exact getCol_ensureNumericStep_total _
    · rcases hh with hh | hh
      · subst hh; exact getCol_ensureNumericStep_litros _
      · cases hh
  unfold process_loaded_df
  cases hg : getCol df c with
  | none =>
    rw [hg] at hpre
    rw [hpre] at hens
    rw [getCol_optimizeStep_mem _ _ _ hc hens]
    simp only [Option.map_none', List.map_replicate, numCoerce_zero]
  | some xs =>
    rw [hg] at hpre
    rw [hpre] at hens
    rw [getCol_optimizeStep_mem _ _ _ hc hens]
    simp only [Option.map_some', List.map_map]
    have hcomp : numCoerce ∘ numCoerce = numCoerce := by
      funext v; exact numCoerce_idem v
    rw [hcomp]

theorem process_getCol_possui (df : DF) :
    getCol (process_loaded_df df) "POSSUI_HIDROMETRO" =
      match getCol df "SITUACAO_HIDROMETRO" with
      | some xs => some ((xs.map stringCoerce).map possuiRule)
      | none => getCol df "POSSUI_HIDROMETRO" := by
  unfold process_loaded_df
  rw [getCol_optimizeStep_notMem _ _ (by decide),
      getCol_ensureNumericStep_ne _ _ (by decide) (by decide)]
  cases hg : getCol df "SITUACAO_HIDROMETRO" with
  | some xs =>
    have hcs : getCol (coerceStep df) "SITUACAO_HIDROMETRO" =
        some (xs.map stringCoerce) := by
      rw [getCol_coerceStep_mem df "SITUACAO_HIDROMETRO" "string" xs (by decide) hg,
        coerceFun_string_eq]
    rw [getCol_hidrometroStep_possui _ _ hcs]
  | none =>
    have hcs : getCol (coerceStep df) "SITUACAO_HIDROMETRO" = none :=
      getCol_coerceStep_none _ _ hg
    rw [hidrometroStep_of_none _ hcs]
    exact getCol_coerceStep_notMem _ _ (by decide)

theorem process_getCol_other (df : DF) (c : String)
    (h1 : c ∉ EXPECTED_COLUMNS.map Prod.fst) (h2 : c ≠ "POSSUI_HIDROMETRO") :
    getCol (process_loaded_df df) c = getCol df c := by
  have h2a : c ≠ "TOTAL_DE_MORADORES" := by
    intro hh; subst hh; exact h1 (by decide)
  have h2b : c ≠ "QUANTOS_LITROS_TOTAIS" := by
    intro hh; subst hh; exact h1 (by decide)
  have hdc : c ∉ downcast_cols := by
    intro hh
    simp only [downcast_cols, List.mem_cons, List.mem_singleton] at hh
    rcases hh with hh | hh
    · exact h2a hh
    · rcases hh with hh | hh
      · exact h2b hh
      · cases hh
  unfold process_loaded_df
  rw [getCol_optimizeStep_notMem _ _ hdc,
      getCol_ensureNumericStep_ne _ _ h2a h2b,
      getCol_hidrometroStep_ne _ _ h2]
  exact getCol_coerceStep_notMem _ _ h1

/-! ### Well-formed frames (equal column lengths) and row counts -/

/-- A pandas data frame always has all columns of the same length. -/
def WF (d : DF) : Bool := d.all (fun p => p.2.length = nrows d)

theorem getCol_mem (d : DF) (c : String) (xs : List Val)
    (h : getCol d c = some xs) : (c, xs) ∈ d := by
  induction d with
  | nil => cases h
  | cons p ps ih =>
    by_cases hp : p.1 = c
    · have : some p.2 = some xs := by simpa [getCol, hp] using h
      have hpx : p = (c, xs) := by
        cases p with
        | mk a b => simp at hp ⊢; exact ⟨hp, Option.some.injEq _ _ |>.mp this⟩
      rw [← hpx]; exact List.mem_cons_self _ _
    · have : getCol ps c = some xs := by simpa [getCol, hp] using h
      exact List.mem_cons_of_mem _ (ih this)

theorem WF_length (d : DF) (c : String) (xs : List Val)
    (hwf : WF d = true) (h : getCol d c = some xs) : xs.length = nrows d := by
  have hm := getCol_mem d c xs h
  have := List.all_eq_true.mp hwf _ hm
  simpa using this

theorem getCol_ne_nil (d : DF) (c : String) (xs : List Val)
    (h : getCol d c = some xs) : d ≠ [] := by
  intro hd; subst hd; cases h

theorem nrows_hidrometroStep (d : DF) (hwf : WF d = true) :
    nrows (hidrometroStep d) = nrows d := by
  unfold hidrometroStep
  cases hs : getCol d "SITUACAO_HIDROMETRO" with
  | none => rfl
  | some xs =>
    cases hp : hasCol d "POSSUI_HIDROMETRO" with
    | true =>
      obtain ⟨ys, hys⟩ := (hasCol_true_iff d _).mp hp
      refine nrows_setCol_of_getCol _ _ _ _ hys ?_
      rw [List.length_map, WF_length d _ _ hwf hs, WF_length d _ _ hwf hys]
    | false =>
      exact nrows_setCol_notHas _ _ _ hp (getCol_ne_nil _ _ _ hs)

theorem WF_setCol (d : DF) (c : String) (xs : List Val)
    (hwf : WF d = true) (hlen : xs.length = nrows d) :
    WF (setCol d c xs) = true := by
  have hn : nrows (setCol d c xs) = nrows d := by
    cases hc : hasCol d c with
    | true =>
      obtain ⟨ys, hys⟩ := (hasCol_true_iff d _).mp hc
      exact nrows_setCol_of_getCol _ _ _ _ hys
        (by rw [hlen, WF_length d _ _ hwf hys])
    | false =>
      cases d with
      | nil =>
        simp only [nrows] at hlen
        unfold setCol
        simp [hc, nrows, List.length_eq_zero.mp hlen]
      | cons p ps => exact nrows_setCol_notHas _ _ _ hc (by simp)
  unfold WF at hwf ⊢
  rw [hn]
  unfold setCol
  cases hc : hasCol d c with
  | true =>
    simp only [hc, if_true]
    rw [List.all_eq_true] at hwf ⊢
    intro q hq
    obtain ⟨p, hp, hpe⟩ := List.mem_map.mp hq
    by_cases hpc : p.1 = c
    · simp only [hpc, if_true] at hpe
      simp [← hpe, hlen]
    · simp only [hpc, if_false] at hpe
      exact hpe ▸ hwf p hp
  | false =>
    simp only [hc, Bool.false_eq_true, if_false]
    rw [List.all_eq_true] at hwf ⊢
    intro q hq
    rcases List.mem_append.mp hq with hq | hq
    · exact hwf q hq
    · have : q = (c, xs) := by simpa using hq
      simp [this, hlen]

theorem WF_applyColOps {β : Type} (key : β → String) (fn : β → Val → Val)
    (L : List β) (d : DF) (hwf : WF d = true) :
    WF (applyColOps key fn L d) = true := by
  induction L generalizing d with
  | nil => exact hwf
  | cons b L ih =>
    rw [applyColOps_cons]
    cases hg : getCol d (key b) with
    | none => exact ih d hwf
    | some xs =>
      refine ih _ (WF_setCol _ _ _ hwf ?_)
      rw [List.length_map]
      exact WF_length d _ _ hwf hg

theorem nrows_process (df : DF) (hwf : WF df = true) :
    nrows (process_loaded_df df) = nrows df := by
  unfold process_loaded_df
  have hwc : WF (coerceStep df) = true := WF_applyColOps _ _ _ _ hwf
  rw [nrows_optimizeStep, nrows_ensureNumericStep,
      nrows_hidrometroStep _ hwc, nrows_coerceStep]

/-! ### Spec-side coercion policies (for the refinement comparisons) -/

/-- The string-column policy exactly as the spec words it: missing
becomes the sentinel, everything else is cast to text as-is. -/
def specStringCoerce : Val → Val
  | Val.na => Val.str "Não informado"
  | v => Val.str (valToStr v)

/-- The numeric-column policy exactly as the spec words it: missing and
unparseable become 0, parsed values are kept. -/
def specNumericCoerce : Val → Val
  | Val.na => Val.num 0
  | Val.num q => Val.num q
  | Val.str s =>
    match parseRat s with
    | some q => Val.num q
    | none => Val.num 0

theorem stringCoerce_eq_spec (v : Val) : stringCoerce v = specStringCoerce v := by
  cases v <;> rfl

theorem numCoerce_eq_spec (v : Val) : numCoerce v = specNumericCoerce v := by
  cases v with
  | na => rfl
  | num q => rfl
  | str s =>
    simp only [numCoerce, toNumeric, specNumericCoerce]
    cases parseRat s <;> simp [fillnaZero]

theorem expected_name_cases (c : String) (h : c ∈ EXPECTED_COLUMNS.map Prod.fst) :
    (c, "string") ∈ EXPECTED_COLUMNS ∨ c ∈ downcast_cols := by
  simp only [EXPECTED_COLUMNS, List.map_cons, List.map_nil, List.mem_cons,
    List.not_mem_nil, or_false] at h
  rcases h with h | h | h | h | h | h | h | h | h | h | h | h | h | h <;>
    subst h <;> first
      | exact Or.inl (by decide)
      | exact Or.inr (by decide)

theorem float_name_cases (c : String) (h : (c, "float64") ∈ EXPECTED_COLUMNS) :
    c ∈ downcast_cols := by
  simp only [EXPECTED_COLUMNS, List.mem_cons, List.not_mem_nil, or_false,
    Prod.mk.injEq] at h
  rcases h with h | h | h | h | h | h | h | h | h | h | h | h | h | h <;>
    first
      | (exact absurd h.2 (by decide))
      | (rw [h.1]; decide)

/-! ## Claim C1 — canonical-column completeness after normalization -/

/-- Claim C1 as stated is false: a canonical string column absent from
the input (here MUNICIPIO) is not created by process_loaded_df, which
only coerces declared columns that are already present. -/
theorem claim_C1_counterexample :
    hasCol (process_loaded_df [("MATRICULA", [Val.num 5])]) "MUNICIPIO" = false := by
  decide

/-- Claim C1 (amended): after normalization only the two canonical
numeric columns are guaranteed to exist, created filled with zeros when
absent; a canonical string column absent from the input stays absent. -/
theorem claim_C1_amended (df : DF) :
    hasCol (process_loaded_df df) "TOTAL_DE_MORADORES" = true ∧
    hasCol (process_loaded_df df) "QUANTOS_LITROS_TOTAIS" = true ∧
    (hasCol df "TOTAL_DE_MORADORES" = false →
      ∃ k, getCol (process_loaded_df df) "TOTAL_DE_MORADORES" =
        some (List.replicate k (Val.num 0))) ∧
    (hasCol df "QUANTOS_LITROS_TOTAIS" = false →
      ∃ k, getCol (process_loaded_df df) "QUANTOS_LITROS_TOTAIS" =
        some (List.replicate k (Val.num 0))) ∧
    (∀ c, (c, "string") ∈ EXPECTED_COLUMNS → hasCol df c = false →
      hasCol (process_loaded_df df) c = false) := by
  refine ⟨?_, ?_, ?_, ?_, ?_⟩
  · rw [hasCol, process_getCol_numeric df _ (by decide)]; rfl
  · rw [hasCol, process_getCol_numeric df _ (by decide)]; rfl
  · intro h
    rw [process_getCol_numeric df _ (by decide),
      getCol_none_of_hasCol_false df _ h]
    exact ⟨_, rfl⟩
  · intro h
    rw [process_getCol_numeric df _ (by decide),
      getCol_none_of_hasCol_false df _ h]
    exact ⟨_, rfl⟩
  · intro c hc h
    rw [hasCol, process_getCol_string df c hc,
      getCol_none_of_hasCol_false df _ h]
    rfl

/-- Witness for claim C1 (amended) at a concrete frame missing every
canonical column. -/
theorem claim_C1_witness :
    hasCol (process_loaded_df [("MATRICULA", [Val.num 5])]) "TOTAL_DE_MORADORES" = true ∧
    (∃ k, getCol (process_loaded_df [("MATRICULA", [Val.num 5])]) "TOTAL_DE_MORADORES" =
      some (List.replicate k (Val.num 0))) ∧
    hasCol (process_loaded_df [("MATRICULA", [Val.num 5])]) "BAIRRO" = false :=
  ⟨(claim_C1_amended _).1,
   (claim_C1_amended _).2.2.1 (by decide),
   (claim_C1_amended _).2.2.2.2 "BAIRRO" (by decide) (by decide)⟩

/-! ## Claim C4 — the derived water-meter indicator -/

theorem stringCoerce_ne_na (v : Val) : stringCoerce v ≠ Val.na := by
  cases v <;> simp [stringCoerce, fillnaStr, astypeStr]

theorem possuiRule_coerced (v : Val) :
    possuiRule (stringCoerce v) =
      if pyUpper (valToStr (stringCoerce v)) ∈ ["NORMAL", "QUEBRADO", "INSTALADO"]
      then Val.str "SIM" else Val.str "NÃO" := by
  unfold possuiRule
  simp [stringCoerce_ne_na v]

/-- Claim C4: when SITUACAO_HIDROMETRO is present, the derived
POSSUI_HIDROMETRO cell is SIM exactly when the uppercased text of the
(coerced) meter-status cell is NORMAL, QUEBRADO or INSTALADO, and NÃO
for every other value; a missing input cell always yields NÃO. -/
theorem claim_C4 (df : DF) (xs : List Val)
    (hs : getCol df "SITUACAO_HIDROMETRO" = some xs) :
    getCol (process_loaded_df df) "POSSUI_HIDROMETRO" =
      some (xs.map (fun v =>
        if pyUpper (valToStr (stringCoerce v)) ∈ ["NORMAL", "QUEBRADO", "INSTALADO"]
        then Val.str "SIM" else Val.str "NÃO")) ∧
    (∀ v : Val, v = Val.na →
      (if pyUpper (valToStr (stringCoerce v)) ∈ ["NORMAL", "QUEBRADO", "INSTALADO"]
       then Val.str "SIM" else Val.str "NÃO") = Val.str "NÃO") := by
  constructor
  · rw [process_getCol_possui df, hs]
    simp only [List.map_map]
    have hf : (possuiRule ∘ stringCoerce) = fun v =>
        if pyUpper (valToStr (stringCoerce v)) ∈ ["NORMAL", "QUEBRADO", "INSTALADO"]
        then Val.str "SIM" else Val.str "NÃO" := by
      funext v; exact possuiRule_coerced v
    rw [hf]
  · intro v hv
    subst hv
    decide

/-- Witness for claim C4 at a concrete meter-status column. -/
theorem claim_C4_witness :
    getCol (process_loaded_df
        [("SITUACAO_HIDROMETRO",
          [Val.str "NORMAL", Val.str "quebrado", Val.str "ausente", Val.na])])
      "POSSUI_HIDROMETRO" =
      some [Val.str "SIM", Val.str "SIM", Val.str "NÃO", Val.str "NÃO"] := by
  rw [(claim_C4
    [("SITUACAO_HIDROMETRO",
      [Val.str "NORMAL", Val.str "quebrado", Val.str "ausente", Val.na])]
    [Val.str "NORMAL", Val.str "quebrado", Val.str "ausente", Val.na] rfl).1]
  decide

/-! ## Claim C5 — the per-column coercion policy on present columns -/

/-- Claim C5: every canonical column present in the input is coerced by
the declared per-column policy; the code-side coercion agrees with the
policy exactly as the spec words it (specStringCoerce and
specNumericCoerce). -/
theorem claim_C5 (df : DF) (c dt : String) (xs : List Val)
    (hdt : (c, dt) ∈ EXPECTED_COLUMNS) (hx : getCol df c = some xs) :
    (dt = "string" →
      getCol (process_loaded_df df) c = some (xs.map specStringCoerce)) ∧
    (dt = "float64" →
      getCol (process_loaded_df df) c = some (xs.map specNumericCoerce)) := by
  constructor
  · intro hdts
    subst hdts
    rw [process_getCol_string df c hdt, hx]
    simp only [Option.map_some']
    have hf : stringCoerce = specStringCoerce := by
      funext v; exact stringCoerce_eq_spec v
    rw [hf]
  · intro hdtf
    subst hdtf
    rw [process_getCol_numeric df c (float_name_cases c hdt)]
    rw [hx]
    show some (xs.map numCoerce) = some (xs.map specNumericCoerce)
    have hf : numCoerce = specNumericCoerce := by
      funext v; exact numCoerce_eq_spec v
    rw [hf]

/-- Witness for claim C5 at concrete string and numeric columns. -/
theorem claim_C5_witness :
    getCol (process_loaded_df
        [("MUNICIPIO", [Val.na, Val.str "Belém"]),
         ("TOTAL_DE_MORADORES", [Val.na, Val.str "4", Val.str "x", Val.num 7])])
      "MUNICIPIO" = some [Val.str "Não informado", Val.str "Belém"] ∧
    getCol (process_loaded_df
        [("MUNICIPIO", [Val.na, Val.str "Belém"]),
         ("TOTAL_DE_MORADORES", [Val.na, Val.str "4", Val.str "x", Val.num 7])])
      "TOTAL_DE_MORADORES" =
      some [Val.num 0, Val.num 4, Val.num 0, Val.num 7] := by
  constructor
  · rw [(claim_C5
      [("MUNICIPIO", [Val.na, Val.str "Belém"]),
       ("TOTAL_DE_MORADORES", [Val.na, Val.str "4", Val.str "x", Val.num 7])]
      "MUNICIPIO" "string" [Val.na, Val.str "Belém"] (by decide) rfl).1 rfl]
    decide
  · rw [(claim_C5
      [("MUNICIPIO", [Val.na, Val.str "Belém"]),
       ("TOTAL_DE_MORADORES", [Val.na, Val.str "4", Val.str "x", Val.num 7])]
      "TOTAL_DE_MORADORES" "float64" [Val.na, Val.str "4", Val.str "x", Val.num 7]
      (by decide) rfl).2 rfl]
    decide

/-! ## Claim C9 — idempotence of normalization -/

/-- Claim C9: re-running process_loaded_df on its own output changes no
cell value of any column (unconditionally: the revision under scrutiny
has no alias-merge step, so the spec proviso about legacy alias columns
is vacuous here). -/
theorem claim_C9 (df : DF) (c : String) :
    getCol (process_loaded_df (process_loaded_df df)) c =
      getCol (process_loaded_df df) c := by
  have hsc : (stringCoerce ∘ stringCoerce) = stringCoerce := by
    funext v; exact stringCoerce_idem v
  have hnc : (numCoerce ∘ numCoerce) = numCoerce := by
    funext v; exact numCoerce_idem v
  by_cases hs : (c, "string") ∈ EXPECTED_COLUMNS
  · rw [process_getCol_string (process_loaded_df df) c hs,
      process_getCol_string df c hs]
    cases hg : getCol df c with
    | none => rfl
    | some xs => simp [List.map_map, hsc]
  · by_cases hd : c ∈ downcast_cols
    · have h1 := process_getCol_numeric df c hd
      rw [process_getCol_numeric (process_loaded_df df) c hd, h1]
      cases hg : getCol df c with
      | none =>
        rw [hg] at h1
        simp only [List.map_replicate, numCoerce_zero]
      | some xs =>
        rw [hg] at h1
        simp [List.map_map, hnc]
    · by_cases hp : c = "POSSUI_HIDROMETRO"
      · subst hp
        have hsit : ("SITUACAO_HIDROMETRO", "string") ∈ EXPECTED_COLUMNS := by decide
        rw [process_getCol_possui (process_loaded_df df),
          process_getCol_string df _ hsit]
        cases hg : getCol df "SITUACAO_HIDROMETRO" with
        | none =>
          simp only [Option.map_none']
        | some xs =>
          simp only [Option.map_some']
          rw [process_getCol_possui df, hg]
          simp [List.map_map, hsc]
      · have hm : c ∉ EXPECTED_COLUMNS.map Prod.fst := by
          intro hmem
          rcases expected_name_cases c hmem with h | h
          · exact hs h
          · exact hd h
        rw [process_getCol_other (process_loaded_df df) c hm hp,
          process_getCol_other df c hm hp]

/-! ## Claim C10 — frame effect of normalization -/

/-- Claim C10: normalization preserves the row count of a well-formed
frame, and any column outside the canonical schema, the derived
POSSUI_HIDROMETRO, the category-conversion list and the downcast list
is returned with all its values unchanged (and in the input order,
since columns are only ever mapped cell-wise). -/
theorem claim_C10 (df : DF) (c : String) (hwf : WF df = true) :
    nrows (process_loaded_df df) = nrows df ∧
    (c ∉ EXPECTED_COLUMNS.map Prod.fst → c ≠ "POSSUI_HIDROMETRO" →
      c ∉ category_cols → c ∉ downcast_cols →
      getCol (process_loaded_df df) c = getCol df c) := by
  refine ⟨nrows_process df hwf, ?_⟩
  intro h1 h2 _ _
  exact process_getCol_other df c h1 h2

/-- Witness for claim C10 at a concrete two-row frame with an untouched
MATRICULA column. -/
theorem claim_C10_witness :
    nrows (process_loaded_df
      [("MATRICULA", [Val.num 1, Val.num 2]),
       ("MUNICIPIO", [Val.str "A", Val.na])]) =
      nrows [("MATRICULA", [Val.num 1, Val.num 2]),
             ("MUNICIPIO", [Val.str "A", Val.na])] ∧
    getCol (process_loaded_df
      [("MATRICULA", [Val.num 1, Val.num 2]),
       ("MUNICIPIO", [Val.str "A", Val.na])]) "MATRICULA" =
      getCol [("MATRICULA", [Val.num 1, Val.num 2]),
              ("MUNICIPIO", [Val.str "A", Val.na])] "MATRICULA" :=
  ⟨(claim_C10 _ "MATRICULA" (by decide)).1,
   (claim_C10 _ "MATRICULA" (by decide)).2 (by decide) (by decide)
     (by decide) (by decide)⟩

/-! ### Multiplicities, first-occurrence grouping, value_counts -/

/-- Multiplicity of a value in a list. -/
def countOf {α : Type} [DecidableEq α] (xs : List α) (v : α) : Nat :=
  (xs.filter (fun x => x = v)).length

/-- The distinct values of a list in first-occurrence order (the order
in which pandas groups object values). -/
def dedupFirst {α : Type} [DecidableEq α] : List α → List α
  | [] => []
  | x :: xs => x :: (dedupFirst xs).filter (fun y => ¬ y = x)

/-- Stable insertion of a (value, count) pair: the pair goes after every
earlier pair of greater-or-equal count. -/
def insertDesc {α : Type} (p : α × Nat) : List (α × Nat) → List (α × Nat)
  | [] => [p]
  | q :: qs => if q.2 ≤ p.2 then p :: q :: qs else q :: insertDesc p qs

/-- Stable insertion sort, descending by count. -/
def sortDesc {α : Type} : List (α × Nat) → List (α × Nat)
  | [] => []
  | p :: ps => insertDesc p (sortDesc ps)

/-- Pandas `Series.value_counts()`: the multiplicity of each distinct
non-missing value, sorted descending by count; ties keep the
first-occurrence order (pandas groups values in order of appearance and
sorts the counts stably). -/
def valueCounts (xs : List Val) : List (Val × Nat) :=
  let ys := xs.filter (fun v => ¬ v = Val.na)
  sortDesc ((dedupFirst ys).map (fun v => (v, countOf ys v)))

theorem insertDesc_perm {α : Type} (p : α × Nat) (l : List (α × Nat)) :
    (insertDesc p l).Perm (p :: l) := by
  induction l with
  | nil => exact List.Perm.refl _
  | cons q qs ih =>
    unfold insertDesc
    by_cases h : q.2 ≤ p.2
    · simp only [h, if_true]
      exact List.Perm.refl _
    · simp only [h, if_false]
      exact (List.Perm.cons q ih).trans (List.Perm.swap p q qs)

theorem sortDesc_perm {α : Type} (l : List (α × Nat)) : (sortDesc l).Perm l := by
  induction l with
  | nil => exact List.Perm.refl _
  | cons p ps ih =>
    exact (insertDesc_perm p (sortDesc ps)).trans (List.Perm.cons p ih)

theorem valueCounts_perm (xs : List Val) :
    (valueCounts xs).Perm
      ((dedupFirst (xs.filter (fun v => ¬ v = Val.na))).map
        (fun v => (v, countOf (xs.filter (fun v => ¬ v = Val.na)) v))) :=
  sortDesc_perm _

/-! ### Claim C2 — the duplicated-registration count -/

/-- Lines 837-845: the duplicated-registration KPI. Rows whose
MATRICULA equals 0 are dropped, value_counts tallies the rest (dropping
missing values), and the count is the sum of the multiplicities that
exceed one minus the number of such multiplicities. -/
def matriculas_duplicadas (xs : List Val) : Nat :=
  let validas := xs.filter (fun v => ¬ v = Val.num 0)
  let contagem := valueCounts validas
  ((contagem.filter (fun p => 1 < p.2)).map Prod.snd).sum -
    (contagem.filter (fun p => 1 < p.2)).length

/-- The duplicate count exactly as the spec words it: over the distinct
identifiers that are neither zero nor missing, the sum of one less than
each multiplicity (identifiers occurring once contribute zero). -/
def specDupCount (xs : List Val) : Nat :=
  let valid := xs.filter (fun v => ¬ v = Val.num 0 ∧ ¬ v = Val.na)
  ((dedupFirst valid).map (fun v => countOf valid v - 1)).sum

theorem length_le_sum_snd (l : List (Val × Nat)) (h : ∀ p ∈ l, 1 ≤ p.2) :
    l.length ≤ (l.map Prod.snd).sum := by
  induction l with
  | nil => simp
  | cons q l ih =>
    have h1 := h q (List.mem_cons_self _ _)
    have h2 := ih (fun p hp => h p (List.mem_cons_of_mem _ hp))
    simp only [List.length_cons, List.map_cons, List.sum_cons]
    omega

theorem sum_sub_length (l : List (Val × Nat)) (h : ∀ p ∈ l, 1 ≤ p.2) :
    (l.map Prod.snd).sum - l.length = (l.map (fun p => p.2 - 1)).sum := by
  induction l with
  | nil => simp
  | cons q l ih =>
    have h1 := h q (List.mem_cons_self _ _)
    have hrest : ∀ p ∈ l, 1 ≤ p.2 := fun p hp => h p (List.mem_cons_of_mem _ hp)
    have h2 := ih hrest
    have h3 := length_le_sum_snd l hrest
    simp only [List.length_cons, List.map_cons, List.sum_cons]
    omega

theorem sum_filter_one_lt (l : List (Val × Nat)) :
    ((l.filter (fun p => 1 < p.2)).map (fun p => p.2 - 1)).sum =
      (l.map (fun p => p.2 - 1)).sum := by
  induction l with
  | nil => rfl
  | cons q l ih =>
    by_cases h : 1 < q.2
    · simp [List.filter_cons, h, ih]
    · have hz : q.2 - 1 = 0 := by omega
      simp [List.filter_cons, h, ih, hz]

/-- Claim C2: the duplicated-registration count equals the sum over
identifier values other than zero occurring k > 1 times of (k - 1);
zeros are excluded first and unique identifiers contribute nothing; on
the spec example [5, 5, 5, 7, 0, 0] the count is 2. -/
theorem claim_C2 :
    (∀ xs : List Val, matriculas_duplicadas xs = specDupCount xs) ∧
    matriculas_duplicadas
      [Val.num 5, Val.num 5, Val.num 5, Val.num 7, Val.num 0, Val.num 0] = 2 := by
  constructor
  · intro xs
    show (List.map Prod.snd ((valueCounts (xs.filter
        (fun v => ¬ v = Val.num 0))).filter (fun p => 1 < p.2))).sum -
        ((valueCounts (xs.filter (fun v => ¬ v = Val.num 0))).filter
          (fun p => 1 < p.2)).length =
        ((dedupFirst (xs.filter (fun v => ¬ v = Val.num 0 ∧ ¬ v = Val.na))).map
          (fun v => countOf (xs.filter
            (fun v => ¬ v = Val.num 0 ∧ ¬ v = Val.na)) v - 1)).sum
    have hperm := (valueCounts_perm (xs.filter (fun v => ¬ v = Val.num 0))).filter
      (fun p => 1 < p.2)
    have hfe : (xs.filter (fun v => ¬ v = Val.num 0)).filter (fun v => ¬ v = Val.na) =
        xs.filter (fun v => ¬ v = Val.num 0 ∧ ¬ v = Val.na) := by
      rw [List.filter_filter]
      exact List.filter_congr (fun v _ => by
        by_cases h0 : v = Val.num 0 <;> by_cases hn : v = Val.na <;> simp [h0, hn])
    set valid := xs.filter (fun v => ¬ v = Val.num 0 ∧ ¬ v = Val.na) with hvalid
    rw [hfe] at hperm
    set groups := (dedupFirst valid).map (fun v => (v, countOf valid v)) with hgroups
    have hsum : (List.map Prod.snd ((valueCounts (xs.filter
        (fun v => ¬ v = Val.num 0))).filter (fun p => 1 < p.2))).sum =
        ((groups.filter (fun p => 1 < p.2)).map Prod.snd).sum :=
      (hperm.map Prod.snd).sum_eq
    have hlen : ((valueCounts (xs.filter (fun v => ¬ v = Val.num 0))).filter
        (fun p => 1 < p.2)).length =
        (groups.filter (fun p => 1 < p.2)).length := hperm.length_eq
    rw [hsum, hlen]
    have hone : ∀ p ∈ groups.filter (fun p => 1 < p.2), 1 ≤ p.2 := by
      intro p hp
      have := List.of_mem_filter hp
      simp only [decide_eq_true_eq] at this
      omega
    rw [sum_sub_length _ hone, sum_filter_one_lt]
    rw [hgroups, List.map_map]
    rfl
  · rfl

/-! ### Counting lemmas: group sizes partition the list -/

theorem mem_dedupFirst {α : Type} [DecidableEq α] (l : List α) (v : α) :
    v ∈ dedupFirst l ↔ v ∈ l := by
  induction l with
  | nil => simp [dedupFirst]
  | cons x t ih =>
    simp only [dedupFirst, List.mem_cons]
    constructor
    · rintro (h | h)
      · exact Or.inl h
      · exact Or.inr (ih.mp (List.mem_of_mem_filter h))
    · rintro (h | h)
      · exact Or.inl h
      · by_cases hvx : v = x
        · exact Or.inl hvx
        · exact Or.inr (List.mem_filter.mpr ⟨ih.mpr h, by simp [hvx]⟩)

theorem countOf_cons_self {α : Type} [DecidableEq α] (x : α) (t : List α) :
    countOf (x :: t) x = countOf t x + 1 := by
  simp [countOf, List.filter_cons]

theorem countOf_cons_ne {α : Type} [DecidableEq α] (x v : α) (t : List α)
    (h : ¬ v = x) : countOf (x :: t) v = countOf t v := by
  have hxv : ¬ x = v := fun hh => h hh.symm
  simp [countOf, List.filter_cons, hxv]

theorem count_split {α : Type} [DecidableEq α] (t : List α) (p : α → Bool) (x : α)
    (hpx : p x = true) :
    (t.filter p).length =
      countOf t x + (t.filter (fun y => p y && ¬ y = x)).length := by
  induction t with
  | nil => simp [countOf]
  | cons a t ih =>
    rw [List.filter_cons, List.filter_cons]
    by_cases ha : a = x
    · subst ha
      simp only [hpx, if_true, countOf_cons_self, eq_self_iff_true, not_true,
        decide_False, Bool.and_false, Bool.false_eq_true, if_false,
        List.length_cons]
      omega
    · have hc : (p a && decide (¬ a = x)) = p a := by simp [ha]
      rw [countOf_cons_ne _ _ _ (fun hh => ha hh.symm), hc]
      cases hpa : p a with
      | true =>
        simp only [hpa, if_true, List.length_cons]
        omega
      | false =>
        simp only [hpa, Bool.false_eq_true, if_false]
        exact ih

theorem filter_and_ne_of_neg {α : Type} [DecidableEq α] (t : List α)
    (p : α → Bool) (x : α) (hpx : p x = false) :
    t.filter (fun y => p y && ¬ y = x) = t.filter p := by
  refine List.filter_congr ?_
  intro a _
  by_cases ha : a = x
  · subst ha; simp [hpx]
  · simp [ha]

theorem sum_counts_filter {α : Type} [DecidableEq α] (t : List α) :
    ∀ p : α → Bool,
      (((dedupFirst t).filter p).map (fun v => countOf t v)).sum =
        (t.filter p).length := by
  induction t with
  | nil => intro p; rfl
  | cons x t ih =>
    intro p
    have hdd : dedupFirst (x :: t) = x :: (dedupFirst t).filter (fun y => ¬ y = x) :=
      rfl
    rw [hdd]
    have hmc : ∀ v ∈ (dedupFirst t).filter (fun y => (p y && ¬ y = x)),
        countOf (x :: t) v = countOf t v := by
      intro v hv
      have hv2 := List.of_mem_filter hv
      simp only [Bool.and_eq_true, decide_eq_true_eq] at hv2
      exact countOf_cons_ne _ _ _ hv2.2
    cases hpx : p x with
    | true =>
      rw [List.filter_cons, List.filter_cons]
      simp only [hpx, if_true]
      rw [List.filter_filter]
      simp only [List.map_cons, List.sum_cons, List.length_cons]
      rw [List.map_congr_left hmc, ih (fun y => p y && ¬ y = x),
        countOf_cons_self]
      rw [count_split t p x hpx]
      omega
    | false =>
      rw [List.filter_cons, List.filter_cons]
      simp only [hpx, Bool.false_eq_true, if_false]
      rw [List.filter_filter]
      rw [List.map_congr_left hmc, ih (fun y => p y && ¬ y = x),
        filter_and_ne_of_neg t p x hpx]

/-! ### Sortedness of the descending count sort -/

theorem insertDesc_pairwise {α : Type} (p : α × Nat) (l : List (α × Nat))
    (h : List.Pairwise (fun a b => b.2 ≤ a.2) l) :
    List.Pairwise (fun a b => b.2 ≤ a.2) (insertDesc p l) := by
  induction l with
  | nil => simp [insertDesc]
  | cons q qs ih =>
    rcases List.pairwise_cons.mp h with ⟨hq, hqs⟩
    unfold insertDesc
    by_cases hlt : q.2 ≤ p.2
    · simp only [hlt, if_true]
      refine List.pairwise_cons.mpr ⟨?_, h⟩
      intro r hr
      rcases List.mem_cons.mp hr with hr | hr
      · subst hr; exact hlt
      · exact le_trans (hq r hr) hlt
    · simp only [hlt, if_false]
      refine List.pairwise_cons.mpr ⟨?_, ih hqs⟩
      intro r hr
      have hr2 := (insertDesc_perm p qs).mem_iff.mp hr
      rcases List.mem_cons.mp hr2 with hr3 | hr3
      · subst hr3; omega
      · exact hq r hr3

theorem sortDesc_pairwise {α : Type} (l : List (α × Nat)) :
    List.Pairwise (fun a b => b.2 ≤ a.2) (sortDesc l) := by
  induction l with
  | nil => simp [sortDesc]
  | cons p ps ih => exact insertDesc_pairwise p (sortDesc ps) ih

theorem foldr_max_le (ns : List Nat) (m : Nat) (h : ∀ a ∈ ns, a ≤ m) :
    ns.foldr Nat.max 0 ≤ m := by
  induction ns with
  | nil => simp
  | cons a ns ih =>
    simp only [List.foldr_cons]
    have h1 := h a (List.mem_cons_self _ _)
    have h2 := ih (fun b hb => h b (List.mem_cons_of_mem _ hb))
    exact Nat.max_le.mpr ⟨h1, h2⟩

/-! ### Filter and map plumbing -/

theorem filter_map_comm {α β : Type} (f : α → β) (q : β → Bool) (l : List α) :
    (l.map f).filter q = (l.filter (fun x => q (f x))).map f := by
  induction l with
  | nil => rfl
  | cons a l ih =>
    cases hq : q (f a) with
    | true => simp [List.filter_cons, hq, ih]
    | false => simp [List.filter_cons, hq, ih]

theorem filter_subsume {α : Type} (p q : α → Bool) (l : List α)
    (h : ∀ a, p a = true → q a = true) : (l.filter p).filter q = l.filter p := by
  induction l with
  | nil => rfl
  | cons a l ih =>
    cases hpa : p a with
    | true => simp [List.filter_cons, hpa, h a hpa, ih]
    | false => simp [List.filter_cons, hpa, ih]

/-! ## Claim C7 — the productivity ranking -/

/-- Lines 1514-1524: the productivity ranking. `value_counts` tallies
the raw agent values of the date-filtered REAMBULADOR column (missing
dropped), the group names are then cast to text and blank or literal
`nan` names are dropped (line 1524 repeats the blank filter of line
1521). -/
def ranking (xs : List Val) : List (String × Nat) :=
  let r0 := (valueCounts xs).map (fun p => (valToStr p.1, p.2))
  let r1 := r0.filter (fun p => ¬ p.1 = "" ∧ ¬ p.1 = "nan")
  r1.filter (fun p => ¬ p.1 = "")

/-- Line 1538: the number of distinct agents shown. -/
def numReambuladores (xs : List Val) : Nat := (ranking xs).length

/-- Line 1547: the total number of visits shown. -/
def totalVisitas (xs : List Val) : Nat := ((ranking xs).map Prod.snd).sum

/-- Line 1531: the mean visits per agent. -/
def mediaVisitas (xs : List Val) : ℚ :=
  (((ranking xs).map Prod.snd).sum : ℚ) / (((ranking xs).length : Nat) : ℚ)

/-- Line 1565: the top entry of the ranking (best performance). -/
def melhorPerformance (xs : List Val) : Nat := ((ranking xs).headD ("", 0)).2

/-- An agent cell that survives the ranking filters: non-missing, and
its text form is neither blank nor the literal nan. -/
def validVisit (v : Val) : Bool :=
  ¬ v = Val.na ∧ ¬ valToStr v = "" ∧ ¬ valToStr v = "nan"

/-- Grouping by agent name treated as text, as claim C7 words it: the
non-missing names are cast to text first, blank and nan names dropped,
and equal texts form one group. -/
def rankingByText (xs : List Val) : List (String × Nat) :=
  let names := ((xs.filter (fun v => ¬ v = Val.na)).map valToStr).filter
    (fun s => ¬ s = "" ∧ ¬ s = "nan")
  sortDesc ((dedupFirst names).map (fun s => (s, countOf names s)))

theorem ranking_eq (xs : List Val) :
    ranking xs = ((valueCounts xs).map (fun p => (valToStr p.1, p.2))).filter
      (fun p => ¬ p.1 = "" ∧ ¬ p.1 = "nan") := by
  unfold ranking
  exact filter_subsume _ _ _ (fun a ha => by
    simp only [decide_eq_true_eq] at ha ⊢
    exact ha.1)

/-- Claim C7 as stated is false on the code: grouping happens on the
raw cell values before the cast to text, so a numeric 1 and the text
"1" stay two separate ranking entries of count 1 each, where grouping
by name-as-text would give a single entry of count 2. -/
theorem claim_C7_counterexample :
    ranking [Val.num 1, Val.str "1"] = [("1", 1), ("1", 1)] ∧
    rankingByText [Val.num 1, Val.str "1"] = [("1", 2)] := by
  constructor <;> rfl

/-- Claim C7 (amended): the ranking groups the date-filtered rows by
raw agent value (missing excluded; names cast to text afterwards with
blank and nan names excluded, so text-equal raw values stay separate
entries), sorts descending by visit count with ties in first-occurrence
order, and derives the agent count, the total visits (the number of
rows carrying a valid agent), the mean visits per agent and the maximal
single-agent count. -/
theorem claim_C7_amended (xs : List Val) (hne : ranking xs ≠ []) :
    List.Pairwise (fun a b => b.2 ≤ a.2) (ranking xs) ∧
    totalVisitas xs = (xs.filter validVisit).length ∧
    mediaVisitas xs = (totalVisitas xs : ℚ) / (numReambuladores xs : ℚ) ∧
    melhorPerformance xs = ((ranking xs).map Prod.snd).foldr Nat.max 0 ∧
    (∀ p ∈ ranking xs, ∃ v, v ∈ xs ∧ ¬ v = Val.na ∧ valToStr v = p.1 ∧
      p.2 = countOf (xs.filter (fun u => ¬ u = Val.na)) v) ∧
    ranking [Val.str "B", Val.str "B", Val.str "B", Val.str "A", Val.str "A",
      Val.str "A", Val.str "C"] = [("B", 3), ("A", 3), ("C", 1)] := by
  have hsorted : List.Pairwise (fun (a b : String × Nat) => b.2 ≤ a.2) (ranking xs) := by
    rw [ranking_eq]
    refine List.Pairwise.filter _ ?_
    refine List.pairwise_map.mpr ?_
    exact sortDesc_pairwise _
  refine ⟨hsorted, ?_, rfl, ?_, ?_, by decide⟩
  · -- total visits = number of valid agent cells
    unfold totalVisitas
    rw [ranking_eq]
    set ys := xs.filter (fun v => ¬ v = Val.na) with hys
    set g : Val × Nat → String × Nat := fun p => (valToStr p.1, p.2) with hg
    set nameOk : String × Nat → Bool := fun p => ¬ p.1 = "" ∧ ¬ p.1 = "nan"
      with hnameOk
    have hperm : ((valueCounts xs).map g |>.filter nameOk).Perm
        ((((dedupFirst ys).map (fun v => (v, countOf ys v))).map g).filter nameOk) :=
      ((valueCounts_perm xs).map g).filter nameOk
    rw [(hperm.map Prod.snd).sum_eq]
    rw [filter_map_comm g nameOk, List.map_map]
    rw [filter_map_comm _ _ (dedupFirst ys), List.map_map]
    have hsnd : ((Prod.snd ∘ g) ∘ fun v => (v, countOf ys v)) =
        fun v => countOf ys v := rfl
    rw [hsnd]
    rw [sum_counts_filter ys _]
    rw [hys, List.filter_filter]
    apply congrArg List.length
    refine List.filter_congr ?_
    intro v _
    cases v <;>
      simp [hnameOk, hg, validVisit, valToStr, Bool.decide_and, decide_not]
  · -- the top entry carries the maximal count
    unfold melhorPerformance
    cases hr : ranking xs with
    | nil => exact absurd hr hne
    | cons q l =>
      rw [hr] at hsorted
      rcases List.pairwise_cons.mp hsorted with ⟨hq, _⟩
      simp only [List.headD_cons, List.map_cons, List.foldr_cons]
      have hle : (l.map Prod.snd).foldr Nat.max 0 ≤ q.2 := by
        refine foldr_max_le _ _ ?_
        intro a ha
        rcases List.mem_map.mp ha with ⟨r, hrl, hra⟩
        rw [← hra]
        exact hq r hrl
      exact (Nat.max_eq_left hle).symm
  · -- every entry is a genuine group of the agent column
    intro p hp
    rw [ranking_eq] at hp
    have hp1 := List.mem_of_mem_filter hp
    rcases List.mem_map.mp hp1 with ⟨pre, hpre, hfp⟩
    have hpre2 := (sortDesc_perm _).mem_iff.mp hpre
    rcases List.mem_map.mp hpre2 with ⟨v, hv, hpv⟩
    have hvys := (mem_dedupFirst _ v).mp hv
    have hvxs := List.mem_of_mem_filter hvys
    have hvna : ¬ v = Val.na := by
      have := List.of_mem_filter hvys
      simpa using this
    refine ⟨v, hvxs, hvna, ?_, ?_⟩
    · rw [← hfp, ← hpv]
    · rw [← hfp, ← hpv]

/-- Witness for claim C7 (amended) at the tie example with
first-encountered order B before A. -/
theorem claim_C7_witness :
    ranking [Val.str "B", Val.str "B", Val.str "B", Val.str "A", Val.str "A",
      Val.str "A", Val.str "C"] ≠ [] ∧
    totalVisitas [Val.str "B", Val.str "B", Val.str "B", Val.str "A", Val.str "A",
      Val.str "A", Val.str "C"] =
      ([Val.str "B", Val.str "B", Val.str "B", Val.str "A", Val.str "A",
        Val.str "A", Val.str "C"].filter validVisit).length ∧
    melhorPerformance [Val.str "B", Val.str "B", Val.str "B", Val.str "A",
      Val.str "A", Val.str "A", Val.str "C"] =
      ((ranking [Val.str "B", Val.str "B", Val.str "B", Val.str "A", Val.str "A",
        Val.str "A", Val.str "C"]).map Prod.snd).foldr Nat.max 0 :=
  ⟨by decide,
   (claim_C7_amended _ (by decide)).2.1,
   (claim_C7_amended _ (by decide)).2.2.2.1⟩

/-! ## Claim C3 — the sidebar filtering -/

/-- Pandas `Series.isin(sel)`: the boolean mask of membership. -/
def isinMask (xs : List Val) (sel : List Val) : List Bool :=
  xs.map (fun v => v ∈ sel)

/-- The `&` of two boolean masks (aligned positionally). -/
def andMask (a b : List Bool) : List Bool := List.zipWith and a b

/-- Pandas `df[mask]`: keep the entries of a column at the true positions. -/
def maskFilter (m : List Bool) (xs : List Val) : List Val :=
  ((xs.zip m).filter (fun p => p.2)).map Prod.fst

/-- Pandas `df[mask]` applied to a whole frame. -/
def applyMask (df : DF) (m : List Bool) : DF :=
  df.map (fun p => (p.1, maskFilter m p.2))

/-- A column, defaulting to empty (the guarded code paths only run when
the column exists). -/
def colD (df : DF) (c : String) : List Val := (getCol df c).getD []

/-- Lines 780-786: the filtered selection; the STATUS conjunct is used
exactly when the frame has a STATUS column. -/
def df_selection (df : DF) (selM selB selS : List Val) : DF :=
  if hasCol df "STATUS" then
    applyMask df (andMask (andMask (isinMask (colD df "MUNICIPIO") selM)
      (isinMask (colD df "BAIRRO") selB)) (isinMask (colD df "STATUS") selS))
  else
    applyMask df (andMask (isinMask (colD df "MUNICIPIO") selM)
      (isinMask (colD df "BAIRRO") selB))

/-- The rows kept by the two-filter conjunction, as the spec words it:
a row survives exactly when its municipality and neighborhood values
are in the respective selected sets. -/
def selectedRows3 (xs M B selM selB : List Val) : List Val :=
  ((xs.zip (M.zip B)).filter
    (fun p => p.2.1 ∈ selM ∧ p.2.2 ∈ selB)).map Prod.fst

/-- The rows kept by the three-filter conjunction, as the spec words
it. -/
def selectedRows4 (xs M B S selM selB selS : List Val) : List Val :=
  ((xs.zip (M.zip (B.zip S))).filter
    (fun p => p.2.1 ∈ selM ∧ p.2.2.1 ∈ selB ∧ p.2.2.2 ∈ selS)).map Prod.fst

theorem maskFilter_cons (c : Bool) (cm : List Bool) (x : Val) (xs : List Val) :
    maskFilter (c :: cm) (x :: xs) =
      if c = true then x :: maskFilter cm xs else maskFilter cm xs := by
  cases c <;> simp [maskFilter, List.filter_cons]

theorem maskFilter_two (xs : List Val) :
    ∀ M B selM selB : List Val,
      maskFilter (andMask (isinMask M selM) (isinMask B selB)) xs =
        selectedRows3 xs M B selM selB := by
  induction xs with
  | nil =>
    intro M B selM selB
    cases M <;> cases B <;> rfl
  | cons x xs ih =>
    intro M B selM selB
    cases M with
    | nil => rfl
    | cons m M =>
      cases B with
      | nil => rfl
      | cons b B =>
        have hstep : andMask (isinMask (m :: M) selM) (isinMask (b :: B) selB) =
            (decide (m ∈ selM) && decide (b ∈ selB)) ::
              andMask (isinMask M selM) (isinMask B selB) := rfl
        rw [hstep, maskFilter_cons, ih M B selM selB]
        by_cases hm : m ∈ selM <;> by_cases hb : b ∈ selB <;>
          simp [selectedRows3, List.filter_cons, hm, hb]

theorem maskFilter_three (xs : List Val) :
    ∀ M B S selM selB selS : List Val,
      maskFilter (andMask (andMask (isinMask M selM) (isinMask B selB))
          (isinMask S selS)) xs =
        selectedRows4 xs M B S selM selB selS := by
  induction xs with
  | nil =>
    intro M B S selM selB selS
    cases M <;> cases B <;> cases S <;> rfl
  | cons x xs ih =>
    intro M B S selM selB selS
    cases M with
    | nil => rfl
    | cons m M =>
      cases B with
      | nil => rfl
      | cons b B =>
        cases S with
        | nil => rfl
        | cons s S =>
          have hstep : andMask (andMask (isinMask (m :: M) selM)
              (isinMask (b :: B) selB)) (isinMask (s :: S) selS) =
              (decide (m ∈ selM) && decide (b ∈ selB) && decide (s ∈ selS)) ::
                andMask (andMask (isinMask M selM) (isinMask B selB))
                  (isinMask S selS) := rfl
          rw [hstep, maskFilter_cons, ih M B S selM selB selS]
          by_cases hm : m ∈ selM <;> by_cases hb : b ∈ selB <;>
            by_cases hs : s ∈ selS <;>
            simp [selectedRows4, List.filter_cons, hm, hb, hs]

theorem getCol_applyMask (df : DF) (m : List Bool) (c : String) (xs : List Val)
    (h : getCol df c = some xs) :
    getCol (applyMask df m) c = some (maskFilter m xs) := by
  induction df with
  | nil => cases h
  | cons p ps ih =>
    by_cases hp : p.1 = c
    · have : some p.2 = some xs := by simpa [getCol, hp] using h
      simp [applyMask, getCol, hp, Option.some.injEq _ _ |>.mp this]
    · have h2 : getCol ps c = some xs := by simpa [getCol, hp] using h
      simpa [applyMask, getCol, hp] using ih h2

theorem selectedRows4_empty (xs M B S selB selS : List Val) :
    selectedRows4 xs M B S [] selB selS = [] := by
  unfold selectedRows4
  rw [List.filter_eq_nil_iff.mpr ?_]
  · rfl
  · intro p _
    simp

theorem selectedRows3_empty (xs M B selB : List Val) :
    selectedRows3 xs M B [] selB = [] := by
  unfold selectedRows3
  rw [List.filter_eq_nil_iff.mpr ?_]
  · rfl
  · intro p _
    simp

/-- Claim C3: the filtered subset keeps exactly the rows whose
MUNICIPIO is in the selected municipality set, whose BAIRRO is in the
selected neighborhood set and, when a STATUS column exists, whose
STATUS is in the selected status set; an empty municipality selection
empties every column of the subset. -/
theorem claim_C3 (df : DF) (selM selB selS : List Val) (M B : List Val)
    (hM : getCol df "MUNICIPIO" = some M) (hB : getCol df "BAIRRO" = some B)
    (c : String) (xs : List Val) (hc : getCol df c = some xs) :
    (∀ S, getCol df "STATUS" = some S →
      getCol (df_selection df selM selB selS) c =
        some (selectedRows4 xs M B S selM selB selS)) ∧
    (hasCol df "STATUS" = false →
      getCol (df_selection df selM selB selS) c =
        some (selectedRows3 xs M B selM selB)) ∧
    (selM = [] → getCol (df_selection df selM selB selS) c = some []) := by
  have hmain4 : ∀ S, getCol df "STATUS" = some S →
      getCol (df_selection df selM selB selS) c =
        some (selectedRows4 xs M B S selM selB selS) := by
    intro S hS
    have hst : hasCol df "STATUS" = true := (hasCol_true_iff df _).mpr ⟨S, hS⟩
    unfold df_selection
    simp only [hst, if_true]
    rw [getCol_applyMask df _ c xs hc]
    unfold colD
    rw [hM, hB, hS]
    simp only [Option.getD_some]
    rw [maskFilter_three xs M B S selM selB selS]
  have hmain3 : hasCol df "STATUS" = false →
      getCol (df_selection df selM selB selS) c =
        some (selectedRows3 xs M B selM selB) := by
    intro hst
    unfold df_selection
    simp only [hst, Bool.false_eq_true, if_false]
    rw [getCol_applyMask df _ c xs hc]
    unfold colD
    rw [hM, hB]
    simp only [Option.getD_some]
    rw [maskFilter_two xs M B selM selB]
  refine ⟨hmain4, hmain3, ?_⟩
  intro hsel
  subst hsel
  cases hst : hasCol df "STATUS" with
  | true =>
    obtain ⟨S, hS⟩ := (hasCol_true_iff df _).mp hst
    rw [hmain4 S hS, selectedRows4_empty]
  | false =>
    rw [hmain3 hst, selectedRows3_empty]

/-- Witness for claim C3 at a concrete three-row frame: the conjunction
keeps exactly the first row, and an empty municipality selection keeps
nothing. -/
theorem claim_C3_witness :
    getCol (df_selection
      [("MUNICIPIO", [Val.str "A", Val.str "A", Val.str "B"]),
       ("BAIRRO", [Val.str "X", Val.str "Y", Val.str "X"]),
       ("STATUS", [Val.str "L", Val.str "D", Val.str "L"]),
       ("MATRICULA", [Val.num 1, Val.num 2, Val.num 3])]
      [Val.str "A"] [Val.str "X", Val.str "Y"] [Val.str "L"])
      "MATRICULA" = some [Val.num 1] ∧
    getCol (df_selection
      [("MUNICIPIO", [Val.str "A", Val.str "A", Val.str "B"]),
       ("BAIRRO", [Val.str "X", Val.str "Y", Val.str "X"]),
       ("STATUS", [Val.str "L", Val.str "D", Val.str "L"]),
       ("MATRICULA", [Val.num 1, Val.num 2, Val.num 3])]
      [] [Val.str "X", Val.str "Y"] [Val.str "L"]) "MATRICULA" = some [] := by
  constructor
  · rw [(claim_C3
      [("MUNICIPIO", [Val.str "A", Val.str "A", Val.str "B"]),
       ("BAIRRO", [Val.str "X", Val.str "Y", Val.str "X"]),
       ("STATUS", [Val.str "L", Val.str "D", Val.str "L"]),
       ("MATRICULA", [Val.num 1, Val.num 2, Val.num 3])]
      [Val.str "A"] [Val.str "X", Val.str "Y"] [Val.str "L"]
      [Val.str "A", Val.str "A", Val.str "B"]
      [Val.str "X", Val.str "Y", Val.str "X"] rfl rfl
      "MATRICULA" [Val.num 1, Val.num 2, Val.num 3] rfl).1
      [Val.str "L", Val.str "D", Val.str "L"] rfl]
    decide
  · exact (claim_C3
      [("MUNICIPIO", [Val.str "A", Val.str "A", Val.str "B"]),
       ("BAIRRO", [Val.str "X", Val.str "Y", Val.str "X"]),
       ("STATUS", [Val.str "L", Val.str "D", Val.str "L"]),
       ("MATRICULA", [Val.num 1, Val.num 2, Val.num 3])]
      [] [Val.str "X", Val.str "Y"] [Val.str "L"]
      [Val.str "A", Val.str "A", Val.str "B"]
      [Val.str "X", Val.str "Y", Val.str "X"] rfl rfl
      "MATRICULA" [Val.num 1, Val.num 2, Val.num 3] rfl).2.2 rfl

/-! ## Claim C6 — KPI guards on the empty selection -/

/-- Line 796: the total-clients KPI. -/
def total_clientes (d : DF) : Nat := nrows d

/-- Lines 807-810: percentage with a water meter.
`value_counts(normalize=True).get(SIM, 0) * 100`: the SIM multiplicity
divided by the non-missing count when SIM occurs, 0 otherwise. -/
def perc_hidrometro (d : DF) : ℚ :=
  match getCol d "POSSUI_HIDROMETRO" with
  | some xs =>
    (match (valueCounts xs).find? (fun p => p.1 = Val.str "SIM") with
     | some p => (p.2 : ℚ) / (((xs.filter (fun v => ¬ v = Val.na)).length : Nat) : ℚ)
     | none => 0) * 100
  | none => 0

/-- A resident-count cell at least 1 (the `>= 1` comparison of line
822, which only numeric cells pass). -/
def valGE1 : Val → Bool
  | Val.num q => 1 ≤ q
  | _ => false

/-- The numeric content of a cell (for sums over all-numeric lists). -/
def valToQ : Val → ℚ
  | Val.num q => q
  | _ => 0

/-- Lines 821-825: mean residents over the rows with at least one
resident, 0 when there are none. -/
def media_moradores (d : DF) : ℚ :=
  match getCol d "TOTAL_DE_MORADORES" with
  | some xs =>
    let com := xs.filter valGE1
    if 0 < com.length then ((com.map valToQ).sum) / ((com.length : Nat) : ℚ)
    else 0
  | none => 0

/-- Claim C6: on an empty filtered selection every scalar KPI is its
neutral value and no division is attempted: 0 clients, 0 percent with
meter, 0 mean residents. -/
theorem claim_C6 (d : DF) (hwf : WF d = true) (h0 : nrows d = 0) :
    total_clientes d = 0 ∧ perc_hidrometro d = 0 ∧ media_moradores d = 0 := by
  refine ⟨h0, ?_, ?_⟩
  · unfold perc_hidrometro
    cases hg : getCol d "POSSUI_HIDROMETRO" with
    | none => rfl
    | some xs =>
      have hlen : xs.length = 0 := by rw [WF_length d _ _ hwf hg, h0]
      have hnil : xs = [] := List.length_eq_zero.mp hlen
      subst hnil
      norm_num [valueCounts, dedupFirst, sortDesc, List.find?]
  · unfold media_moradores
    cases hg : getCol d "TOTAL_DE_MORADORES" with
    | none => rfl
    | some xs =>
      have hlen : xs.length = 0 := by rw [WF_length d _ _ hwf hg, h0]
      have hnil : xs = [] := List.length_eq_zero.mp hlen
      subst hnil
      rfl

/-- Witness for claim C6 at the empty frame with both KPI columns. -/
theorem claim_C6_witness :
    total_clientes [("POSSUI_HIDROMETRO", []), ("TOTAL_DE_MORADORES", [])] = 0 ∧
    perc_hidrometro [("POSSUI_HIDROMETRO", []), ("TOTAL_DE_MORADORES", [])] = 0 ∧
    media_moradores [("POSSUI_HIDROMETRO", []), ("TOTAL_DE_MORADORES", [])] = 0 :=
  claim_C6 [("POSSUI_HIDROMETRO", []), ("TOTAL_DE_MORADORES", [])]
    (by decide) (by decide)

/-! ## Claim C8 — map point reduction -/

/-- Python `round(x, 3)` (numpy half-even rounding, modelled exactly on
rationals). -/
def round3 (q : ℚ) : ℚ :=
  let x := q * 1000
  let n : ℤ := ⌊x⌋
  let r : ℚ := x - (n : ℚ)
  if r < 1/2 then (n : ℚ) / 1000
  else if (1 : ℚ)/2 < r then ((n + 1 : ℤ) : ℚ) / 1000
  else (if n % 2 = 0 then (n : ℚ) else ((n + 1 : ℤ) : ℚ)) / 1000

/-- Cells `.round` accepts without raising: numbers, and missing (NaN
rounds to NaN). -/
def isNumOrNa : Val → Bool
  | Val.str _ => false
  | _ => true

/-- Pandas `.round(3)` on one cell. -/
def roundVal : Val → Val
  | Val.num q => Val.num (round3 q)
  | v => v

/-- The grouping keys of lines 249-251: rounded latitude, rounded
longitude and status, for the rows where all three are non-missing
(pandas groupby drops missing keys). -/
def gridKeys (lat lon stat : List Val) : List (Val × Val × Val) :=
  ((lat.map roundVal).zip ((lon.map roundVal).zip stat)).filter
    (fun k => ¬ k.1 = Val.na ∧ ¬ k.2.1 = Val.na ∧ ¬ k.2.2 = Val.na)

/-- Lines 238-264: the map point reduction. The frame is returned
unchanged within the budget; otherwise the rows are grouped by rounded
coordinates and status into one row per group carrying the group size;
when that grouping would raise (missing column, or non-numeric
coordinates that `.round` rejects) the code falls back to
`df.sample(min(n, budget), random_state 42)`. The pandas sampler draws
a seed-determined uniform subset; its drawing is library internals, so
it enters the model as the function parameter `sampler`. -/
def prepare_map_points (sampler : DF → Nat → Nat → DF) (df_map : DF)
    (max_points : Nat) : DF × Option String :=
  let n := nrows df_map
  if n ≤ max_points then (df_map, none)
  else
    if hasCol df_map "LATITUDE" = true ∧ hasCol df_map "LONGITUDE" = true ∧
        hasCol df_map "STATUS" = true ∧
        (colD df_map "LATITUDE").all isNumOrNa = true ∧
        (colD df_map "LONGITUDE").all isNumOrNa = true then
      let keys := gridKeys (colD df_map "LATITUDE") (colD df_map "LONGITUDE")
        (colD df_map "STATUS")
      let ks := dedupFirst keys
      ([("LATITUDE", ks.map (fun k => k.1)),
        ("LONGITUDE", ks.map (fun k => k.2.1)),
        ("STATUS", ks.map (fun k => k.2.2)),
        ("count", ks.map (fun k => Val.num (countOf keys k)))],
       some "reduzido por agregação em grade")
    else
      (sampler df_map (min n max_points) 42, some "amostrado (fallback)")

/-- Claim C8: within the budget the rows come back unchanged; over the
budget the rows are grouped by (rounded latitude, rounded longitude,
status) into one row per occurring key carrying the group size (the
group sizes add up to the number of grouped rows, and there is exactly
one output row per occurring key); when the grouping cannot run, the
result is the seed-42 uniform sample of min(n, budget) rows. -/
theorem claim_C8 (sampler : DF → Nat → Nat → DF) (df : DF) (mp : Nat) :
    (nrows df ≤ mp → prepare_map_points sampler df mp = (df, none)) ∧
    (∀ lat lon stat, mp < nrows df →
      getCol df "LATITUDE" = some lat → getCol df "LONGITUDE" = some lon →
      getCol df "STATUS" = some stat →
      lat.all isNumOrNa = true → lon.all isNumOrNa = true →
      prepare_map_points sampler df mp =
        ([("LATITUDE", (dedupFirst (gridKeys lat lon stat)).map (fun k => k.1)),
          ("LONGITUDE", (dedupFirst (gridKeys lat lon stat)).map (fun k => k.2.1)),
          ("STATUS", (dedupFirst (gridKeys lat lon stat)).map (fun k => k.2.2)),
          ("count", (dedupFirst (gridKeys lat lon stat)).map
            (fun k => Val.num (countOf (gridKeys lat lon stat) k)))],
         some "reduzido por agregação em grade") ∧
      ((dedupFirst (gridKeys lat lon stat)).map
        (fun k => countOf (gridKeys lat lon stat) k)).sum =
        (gridKeys lat lon stat).length ∧
      (∀ k, k ∈ dedupFirst (gridKeys lat lon stat) ↔ k ∈ gridKeys lat lon stat)) ∧
    (mp < nrows df →
      ¬ (hasCol df "LATITUDE" = true ∧ hasCol df "LONGITUDE" = true ∧
        hasCol df "STATUS" = true ∧
        (colD df "LATITUDE").all isNumOrNa = true ∧
        (colD df "LONGITUDE").all isNumOrNa = true) →
      prepare_map_points sampler df mp =
        (sampler df (min (nrows df) mp) 42, some "amostrado (fallback)")) := by
  refine ⟨?_, ?_, ?_⟩
  · intro h
    unfold prepare_map_points
    simp only [h, if_true]
  · intro lat lon stat hn hlat hlon hstat hlatn hlonn
    have hnle : ¬ nrows df ≤ mp := by omega
    have hcd1 : colD df "LATITUDE" = lat := by unfold colD; rw [hlat]; rfl
    have hcd2 : colD df "LONGITUDE" = lon := by unfold colD; rw [hlon]; rfl
    have hcd3 : colD df "STATUS" = stat := by unfold colD; rw [hstat]; rfl
    have hcond : hasCol df "LATITUDE" = true ∧ hasCol df "LONGITUDE" = true ∧
        hasCol df "STATUS" = true ∧
        (colD df "LATITUDE").all isNumOrNa = true ∧
        (colD df "LONGITUDE").all isNumOrNa = true := by
      refine ⟨(hasCol_true_iff df _).mpr ⟨lat, hlat⟩,
        (hasCol_true_iff df _).mpr ⟨lon, hlon⟩,
        (hasCol_true_iff df _).mpr ⟨stat, hstat⟩, ?_, ?_⟩
      · rw [hcd1]; exact hlatn
      · rw [hcd2]; exact hlonn
    refine ⟨?_, ?_, fun k => mem_dedupFirst _ k⟩
    · unfold prepare_map_points
      simp only [hnle, if_false, hcond, if_true, hcd1, hcd2, hcd3]
      simp [hlatn, hlonn]
    · have h1 := sum_counts_filter (gridKeys lat lon stat) (fun _ => true)
      simpa using h1
  · intro hn hcond
    have hnle : ¬ nrows df ≤ mp := by omega
    unfold prepare_map_points
    simp only [hnle, if_false, hcond, if_false]

/-- Witness for claim C8: a two-row frame within a budget of 5 comes
back unchanged, and the same frame over a budget of 1 takes the grid
branch. -/
theorem claim_C8_witness :
    prepare_map_points (fun d _ _ => d)
      [("LATITUDE", [Val.num 1, Val.num 1]),
       ("LONGITUDE", [Val.num 2, Val.num 2]),
       ("STATUS", [Val.str "L", Val.str "L"])] 5 =
      ([("LATITUDE", [Val.num 1, Val.num 1]),
        ("LONGITUDE", [Val.num 2, Val.num 2]),
        ("STATUS", [Val.str "L", Val.str "L"])], none) ∧
    (prepare_map_points (fun d _ _ => d)
      [("LATITUDE", [Val.num 1, Val.num 1]),
       ("LONGITUDE", [Val.num 2, Val.num 2]),
       ("STATUS", [Val.str "L", Val.str "L"])] 1).2 =
      some "reduzido por agregação em grade" := by
  constructor
  · exact (claim_C8 (fun d _ _ => d) _ 5).1 (by decide)
  · rw [((claim_C8 (fun d _ _ => d)
      [("LATITUDE", [Val.num 1, Val.num 1]),
       ("LONGITUDE", [Val.num 2, Val.num 2]),
       ("STATUS", [Val.str "L", Val.str "L"])] 1).2.1
      [Val.num 1, Val.num 1] [Val.num 2, Val.num 2] [Val.str "L", Val.str "L"]
      (by decide) rfl rfl rfl (by decide) (by decide)).1]

end Dashboard
